import Mathlib

/-!
# FinanceBuddy — ledger mutation and recurring-transaction scheduling

Shallow embedding of the ledger mutation engine (`server/storage.ts`:
`DatabaseStorage.createTransaction` / `updateTransaction` /
`deleteTransaction`, `getRecurringTransactionsDue`) and of the recurring
generation route (`POST /api/recurring-transactions/generate` in
`server/routes.ts`), together with theorems settling the frozen claims.

Modelling choices, all value-preserving for the claims under study:

* Monetary amounts and balances are `Int`.  The source stores Postgres
  `decimal(12,2)` strings and computes with `parseFloat` / JS number
  arithmetic; for the exact decimal values every claim mentions this
  arithmetic is exact, and the engine only ever adds and subtracts.
* Timestamps are modelled at day granularity as `Int` (days since the
  Unix epoch), plus a civil calendar type `CivilDate` mirroring the JS
  `Date` fields `getFullYear` / `getMonth` (0-based) / `getDate`.  The JS
  `setDate` / `setMonth` mutators are modelled through the time value
  (days), exactly as ECMAScript `MakeDay` computes them.
* A database state is explicit lists of rows.  `db.insert` / `db.update` /
  `db.delete` / `db.select` become list operations; the foreign keys the
  schema (`shared/schema.ts`) declares on `transactions.accountId`,
  `transactions.categoryId` and `transactions.userId` are enforced by the
  modelled insert/update, as Postgres does.  `serial` ids are modelled by a
  `nextTxId` counter.  `createdAt` columns (DB-defaulted audit fields read
  by no embedded function) and display-only columns (account name/type,
  category name/type) are omitted.
* Each storage method is a step-by-step translation; a thrown JS error
  (including the `TypeError` that dereferencing a missing account row would
  raise) is an `.error` result, returned together with the database state
  at the moment of the throw, since earlier statements have already been
  executed against the store (there is no enclosing SQL transaction in the
  source).
-/

namespace FinanceBuddy

/-- `transaction_type` enum of `shared/schema.ts`: `income | expense`. -/
inductive TxType where
  | income
  | expense
deriving DecidableEq, Repr

/-- `frequency` enum of `shared/schema.ts`: `daily | weekly | monthly`. -/
inductive Freq where
  | daily
  | weekly
  | monthly
deriving DecidableEq, Repr

/-- An `accounts` row (columns the engine reads or writes). -/
structure Account where
  id : Nat
  userId : Nat
  balance : Int
deriving DecidableEq, Repr

/-- A `categories` row (columns the engine reads). -/
structure Category where
  id : Nat
  userId : Nat
deriving DecidableEq, Repr

/-- A `transactions` row. -/
structure Txn where
  id : Nat
  amount : Int
  date : Int
  description : String
  type : TxType
  accountId : Nat
  categoryId : Nat
  userId : Nat
deriving DecidableEq, Repr

/-- A `recurring_transactions` row. -/
structure Recur where
  id : Nat
  amount : Int
  description : String
  type : TxType
  frequency : Freq
  nextRunDate : Int
  accountId : Nat
  categoryId : Nat
  userId : Nat
  isActive : Bool
deriving DecidableEq, Repr

/-- The database state the engine operates on. -/
structure DB where
  users : List Nat
  accounts : List Account
  categories : List Category
  transactions : List Txn
  recurring : List Recur
  nextTxId : Nat
deriving DecidableEq, Repr

/-- The errors a storage call surfaces: a foreign-key rejection from the
store, or a thrown `Error` / `TypeError` in the method body (the source
only ever reports these to the route layer as a failed call). -/
inductive DbErr where
  | fkViolation
  | notFound
deriving DecidableEq, Repr

/-- `db.select().from(accounts).where(eq(accounts.id, id))`, first row. -/
def findAccount (db : DB) (id : Nat) : Option Account :=
  db.accounts.find? (fun a => a.id == id)

/-- `db.select().from(categories).where(eq(categories.id, id))`, first row. -/
def findCategory (db : DB) (id : Nat) : Option Category :=
  db.categories.find? (fun c => c.id == id)

/-- `db.update(accounts).set({balance}).where(eq(accounts.id, id))` — note
the source filters on the account id only, not on the owner. -/
def setBalance (db : DB) (id : Nat) (b : Int) : DB :=
  { db with accounts := db.accounts.map (fun a => if a.id == id then { a with balance := b } else a) }

/-- `InsertTransaction & {userId}` as validated by the route layer: the
drizzle-zod `insertTransactionSchema` omits `id`/`createdAt`/`userId` and
performs no positivity or ownership check on the remaining fields. -/
structure InsertTx where
  amount : Int
  date : Int
  description : String
  type : TxType
  accountId : Nat
  categoryId : Nat
  userId : Nat
deriving DecidableEq, Repr

/-- The foreign-key checks Postgres performs on a `transactions` insert,
per the references `shared/schema.ts` declares: `accountId → accounts.id`,
`categoryId → categories.id`, `userId → users.id`. -/
def insertTxOk (db : DB) (v : InsertTx) : Bool :=
  (findAccount db v.accountId).isSome && (findCategory db v.categoryId).isSome
    && db.users.contains v.userId

/-- The row an insert of `v` produces: the serial id plus `v`'s columns. -/
def mkTx (db : DB) (v : InsertTx) : Txn :=
  { id := db.nextTxId, amount := v.amount, date := v.date,
    description := v.description, type := v.type,
    accountId := v.accountId, categoryId := v.categoryId,
    userId := v.userId }

/-- The state after a successful insert of `v`: the new row appended, the
serial counter advanced. -/
def insertedDB (db : DB) (v : InsertTx) : DB :=
  { db with transactions := db.transactions ++ [mkTx db v], nextTxId := db.nextTxId + 1 }

/-- `db.insert(transactions).values(v).returning()`: Postgres assigns the
serial id and enforces the three declared foreign keys; a violation
rejects the insert with no effect. -/
def insertTx (db : DB) (v : InsertTx) : Except DbErr (DB × Txn) :=
  if insertTxOk db v then
    .ok (insertedDB db v, mkTx db v)
  else
    .error .fkViolation

/-- `DatabaseStorage.getTransaction` (storage.ts:218-221). -/
def getTransaction (db : DB) (id userId : Nat) : Option Txn :=
  db.transactions.find? (fun t => t.id == id && t.userId == userId)

/-- `DatabaseStorage.createTransaction` (storage.ts:223-238): insert the
row, then read the referenced account's balance and write back
`balance + balanceChange`, where `balanceChange` is `+amount` for income
and `-amount` for expense.  The pair holds the database state when the
call returns or throws. -/
def createTransaction (db : DB) (v : InsertTx) : DB × Except DbErr Txn :=
  match insertTx db v with
  | .error e => (db, .error e)
  | .ok (db1, newTransaction) =>
    let amount := newTransaction.amount
    let balanceChange := if newTransaction.type = TxType.income then amount else -amount
    match findAccount db1 newTransaction.accountId with
    | none =>
      -- dereferencing the missing row would throw; unreachable, since the
      -- insert's foreign key has just checked the account row exists
      (db1, .error .notFound)
    | some currentAccount =>
      (setBalance db1 newTransaction.accountId (currentAccount.balance + balanceChange),
        .ok newTransaction)

/-- `Partial<InsertTransaction>` for transactions: every field optional
(`userId` is omitted by the schema, so a patch can never change it). -/
structure TxPatch where
  amount : Option Int := none
  date : Option Int := none
  description : Option String := none
  type : Option TxType := none
  accountId : Option Nat := none
  categoryId : Option Nat := none
deriving DecidableEq, Repr

/-- `db.update(transactions).set(patch)` applied to one row. -/
def applyPatch (t : Txn) (p : TxPatch) : Txn :=
  { t with amount := p.amount.getD t.amount,
           date := p.date.getD t.date,
           description := p.description.getD t.description,
           type := p.type.getD t.type,
           accountId := p.accountId.getD t.accountId,
           categoryId := p.categoryId.getD t.categoryId }

/-- The foreign-key checks Postgres performs when an update writes the
referencing columns `accountId` / `categoryId`. -/
def patchRefsOk (db : DB) (accountId categoryId : Option Nat) : Bool :=
  (match accountId with
   | some a => (findAccount db a).isSome
   | none => true)
    && (match categoryId with
        | some c => (findCategory db c).isSome
        | none => true)

/-- The state after `db.update(transactions).set(patch).where(id and
userId)`: the matching rows patched in place. -/
def txPatchedDB (db : DB) (id userId : Nat) (p : TxPatch) : DB :=
  { db with transactions := db.transactions.map (fun t =>
      if t.id == id && t.userId == userId then applyPatch t p else t) }

/-- `db.update(transactions).set(patch).where(id and userId).returning()`:
Postgres re-checks a declared foreign key when the patch writes the
referencing column; a violation rejects the update with no effect.
Returns the new state and the first updated row, as the destructuring
`const [updatedTransaction] = ...` reads it. -/
def updateTxRow (db : DB) (id userId : Nat) (p : TxPatch) :
    Except DbErr (DB × Option Txn) :=
  if patchRefsOk db p.accountId p.categoryId then
    .ok (txPatchedDB db id userId p,
         (getTransaction db id userId).map (fun t => applyPatch t p))
  else
    .error .fkViolation

/-- `DatabaseStorage.updateTransaction` (storage.ts:240-273): read the
original row (throw `Transaction not found` if absent), update the row,
then revert the original balance change on the original account
(read-modify-write) and apply the new balance change on the updated
row's account (read-modify-write). -/
def updateTransaction (db : DB) (id userId : Nat) (p : TxPatch) :
    DB × Except DbErr Txn :=
  match getTransaction db id userId with
  | none => (db, .error .notFound)
  | some original =>
    match updateTxRow db id userId p with
    | .error e => (db, .error e)
    | .ok (db1, updatedRow) =>
      match updatedRow with
      | none =>
        -- unreachable: the row `getTransaction` just found matches the
        -- update's `where` clause, so `returning()` is non-empty
        (db1, .error .notFound)
      | some updatedTransaction =>
        let originalAmount := original.amount
        let originalBalanceChange :=
          if original.type = TxType.income then -originalAmount else originalAmount
        match findAccount db1 original.accountId with
        | none => (db1, .error .notFound)
        | some currentAccount =>
          let db2 := setBalance db1 original.accountId
            (currentAccount.balance + originalBalanceChange)
          let newAmount := updatedTransaction.amount
          let newBalanceChange :=
            if updatedTransaction.type = TxType.income then newAmount else -newAmount
          match findAccount db2 updatedTransaction.accountId with
          | none => (db2, .error .notFound)
          | some newAccount =>
            (setBalance db2 updatedTransaction.accountId
              (newAccount.balance + newBalanceChange),
             .ok updatedTransaction)

/-- The state after `db.delete(transactions).where(id and userId)`: the
matching rows removed. -/
def txRemovedDB (db : DB) (id userId : Nat) : DB :=
  { db with transactions := db.transactions.filter (fun t =>
      !(t.id == id && t.userId == userId)) }

/-- `DatabaseStorage.deleteTransaction` (storage.ts:275-291): read the row
(throw if absent), revert its balance change on its account
(read-modify-write), then delete the row. -/
def deleteTransaction (db : DB) (id userId : Nat) : DB × Except DbErr Unit :=
  match getTransaction db id userId with
  | none => (db, .error .notFound)
  | some transaction =>
    let amount := transaction.amount
    let balanceChange :=
      if transaction.type = TxType.income then -amount else amount
    match findAccount db transaction.accountId with
    | none => (db, .error .notFound)
    | some currentAccount =>
      let db1 := setBalance db transaction.accountId
        (currentAccount.balance + balanceChange)
      (txRemovedDB db1 id userId, .ok ())

/-! ## JS `Date` arithmetic at day granularity

`routes.ts` advances `nextRunDate` with `setDate(getDate() + k)` and
`setMonth(getMonth() + 1)`.  ECMAScript computes both through the time
value: `MakeDay(y, m, d)` normalizes the month into the year and then adds
`d - 1` days to the first of that month, so an out-of-range day *rolls
over* into the following month.  `daysFromCivil` / `civilFromDays` are the
standard Gregorian rata-die conversions (days since 1970-01-01). -/

/-- Days from civil date (month `m` is 1-based here), days since 1970-01-01.
(`/` and `%` on `Int` are Euclidean division, which for the positive
divisors used here is exactly the floor division ECMAScript specifies.) -/
def daysFromCivil (y m d : Int) : Int :=
  let y2 := if m ≤ 2 then y - 1 else y
  let era := y2 / 400
  let yoe := y2 - era * 400
  let mp := (m + 9) % 12
  let doy := (153 * mp + 2) / 5 + d - 1
  let doe := yoe * 365 + yoe / 4 - yoe / 100 + doy
  era * 146097 + doe - 719468

/-- A civil date as JS exposes it: `getFullYear`, `getMonth` (0-based),
`getDate` (1-based). -/
structure CivilDate where
  year : Int
  month : Int
  day : Int
deriving DecidableEq, Repr

/-- Civil date from days since 1970-01-01 (inverse of `daysFromCivil`). -/
def civilFromDays (z : Int) : CivilDate :=
  let z2 := z + 719468
  let era := z2 / 146097
  let doe := z2 - era * 146097
  let yoe := (doe - doe / 1460 + doe / 36524 - doe / 146096) / 365
  let y := yoe + era * 400
  let doy := doe - (365 * yoe + yoe / 4 - yoe / 100)
  let mp := (5 * doy + 2) / 153
  let d := doy - (153 * mp + 2) / 5 + 1
  let m := if mp < 10 then mp + 3 else mp - 9
  { year := if m ≤ 2 then y + 1 else y, month := m - 1, day := d }

/-- The day count (JS time value at day granularity) of a civil date. -/
def civilToDays (dt : CivilDate) : Int :=
  daysFromCivil dt.year (dt.month + 1) dt.day

/-- `d.setDate(d.getDate() + k)`: `MakeDay(year, month, day + k)`, which at
day granularity is exactly adding `k` days to the time value. -/
def jsAddDays (dt : CivilDate) (k : Int) : CivilDate :=
  civilFromDays (civilToDays dt + k)

/-- `d.setMonth(m)`: `MakeDay(year, m, day)` — the month is normalized into
the year and the kept day-of-month is added as `day - 1` days past the
first of the target month, so a day that does not exist in the target
month rolls over into the following month (no clamping). -/
def jsSetMonth (dt : CivilDate) (m : Int) : CivilDate :=
  civilFromDays (daysFromCivil (dt.year + m / 12) (m % 12 + 1) 1 + (dt.day - 1))

/-- The `switch (recurringTransaction.frequency)` block of
`POST /api/recurring-transactions/generate` (routes.ts): `daily` →
`setDate(getDate() + 1)`, `weekly` → `setDate(getDate() + 7)`, `monthly`
→ `setMonth(getMonth() + 1)`. -/
def advanceNextRun (freq : Freq) (dt : CivilDate) : CivilDate :=
  match freq with
  | .daily => jsAddDays dt 1
  | .weekly => jsAddDays dt 7
  | .monthly => jsSetMonth dt (dt.month + 1)

/-- The same advancement on the stored day count: the route constructs
`new Date(recurringTransaction.nextRunDate)`, mutates it and stores it
back. -/
def advanceDays (freq : Freq) (t : Int) : Int :=
  civilToDays (advanceNextRun freq (civilFromDays t))

/-! ## Recurring transactions: due query, row update, generation pass -/

/-- `DatabaseStorage.getRecurringTransactionsDue` (storage.ts:396-418):
`recurring_transactions` inner-joined with `accounts` on `accountId` and
with `categories` on `categoryId`, filtered on `isActive` and
`nextRunDate <= now`.  The route only reads the definition's own columns
from the joined rows, so the result keeps those. -/
def getRecurringTransactionsDue (db : DB) (now : Int) : List Recur :=
  db.recurring.filter (fun r =>
    (findAccount db r.accountId).isSome && (findCategory db r.categoryId).isSome
      && r.isActive && decide (r.nextRunDate ≤ now))

/-- `Partial<InsertRecurringTransaction>`: every field optional (`userId`
omitted by the schema). -/
structure RecurPatch where
  amount : Option Int := none
  description : Option String := none
  type : Option TxType := none
  frequency : Option Freq := none
  nextRunDate : Option Int := none
  accountId : Option Nat := none
  categoryId : Option Nat := none
  isActive : Option Bool := none
deriving DecidableEq, Repr

/-- `db.update(recurringTransactions).set(patch)` applied to one row. -/
def applyRecurPatch (r : Recur) (p : RecurPatch) : Recur :=
  { r with amount := p.amount.getD r.amount,
           description := p.description.getD r.description,
           type := p.type.getD r.type,
           frequency := p.frequency.getD r.frequency,
           nextRunDate := p.nextRunDate.getD r.nextRunDate,
           accountId := p.accountId.getD r.accountId,
           categoryId := p.categoryId.getD r.categoryId,
           isActive := p.isActive.getD r.isActive }

/-- The state after `db.update(recurringTransactions).set(patch).where(id
and userId)`. -/
def recurPatchedDB (db : DB) (id userId : Nat) (p : RecurPatch) : DB :=
  { db with recurring := db.recurring.map (fun r =>
      if r.id == id && r.userId == userId then applyRecurPatch r p else r) }

/-- `DatabaseStorage.updateRecurringTransaction` (storage.ts:384-390):
update the rows matching `id` and `userId`, with the declared foreign
keys re-checked when the patch writes them. -/
def updateRecurringTransaction (db : DB) (id userId : Nat) (p : RecurPatch) :
    Except DbErr DB :=
  if patchRefsOk db p.accountId p.categoryId then
    .ok (recurPatchedDB db id userId p)
  else
    .error .fkViolation

/-- One iteration of the generation loop for definition `r`: create the
transaction from the definition's fields with `date = now`, then advance
`nextRunDate` by the frequency switch and persist it.  The pair holds the
state when the iteration finishes or throws. -/
def generateOne (db : DB) (now : Int) (r : Recur) : DB × Except DbErr Txn :=
  match createTransaction db
    { amount := r.amount, date := now, description := r.description,
      type := r.type, accountId := r.accountId, categoryId := r.categoryId,
      userId := r.userId } with
  | (db1, .error e) => (db1, .error e)
  | (db1, .ok transaction) =>
    match updateRecurringTransaction db1 r.id r.userId
      { nextRunDate := some (advanceDays r.frequency r.nextRunDate) } with
    | .error e => (db1, .error e)
    | .ok db2 => (db2, .ok transaction)

/-- What a generation pass leaves behind: the database state, the list of
generated transactions, and — because the whole loop sits inside one
`try`/`catch` — either no error (the route replies
`{generated: n, transactions}`) or the first thrown error (the route
replies a single generic 500, discarding the list). -/
structure GenResult where
  db : DB
  transactions : List Txn
  error : Option DbErr
deriving DecidableEq, Repr

/-- The loop of `POST /api/recurring-transactions/generate` over an
already-computed due list: stops at the first error, keeping the effects
of the iterations already executed. -/
def generateLoop (now : Int) : DB → List Recur → List Txn → GenResult
  | db, [], acc => { db := db, transactions := acc, error := none }
  | db, r :: rest, acc =>
    match generateOne db now r with
    | (db1, .ok tx) => generateLoop now db1 rest (acc ++ [tx])
    | (db1, .error e) => { db := db1, transactions := acc, error := some e }

/-- `POST /api/recurring-transactions/generate` (routes.ts): compute the
due list once, then run the loop. -/
def generatePass (db : DB) (now : Int) : GenResult :=
  generateLoop now db (getRecurringTransactionsDue db now) []

/-- `k` successive generation passes with the same `now` (repeated
invocations of the generate route). -/
def runPasses (now : Int) : Nat → DB → DB
  | 0, db => db
  | k + 1, db => runPasses now k (generatePass db now).db

/-! ## The ledger balance invariant and operation sequences -/

/-- The signed contribution of a transaction to its account's balance:
`+amount` for income, `-amount` for expense. -/
def signedAmount (t : Txn) : Int :=
  match t.type with
  | .income => t.amount
  | .expense => -t.amount

/-- The signed sum of the transactions referencing account `j`. -/
def txSum (txs : List Txn) (j : Nat) : Int :=
  (txs.map (fun t => if t.accountId = j then signedAmount t else 0)).sum

/-- The balance invariant: every account's cached balance equals its
balance at creation time (`init` keyed by account id) plus the signed sum
of the transactions currently referencing it. -/
def balanceInv (init : Nat → Int) (db : DB) : Prop :=
  ∀ a ∈ db.accounts, a.balance = init a.id + txSum db.transactions a.id

/-- Structural well-formedness the store guarantees: primary keys are
unique and the serial counter is ahead of every existing transaction id. -/
def WfDB (db : DB) : Prop :=
  db.accounts.Pairwise (fun a b => a.id ≠ b.id) ∧
  db.transactions.Pairwise (fun s t => s.id ≠ t.id) ∧
  ∀ t ∈ db.transactions, t.id < db.nextTxId

/-- Referential integrity the schema's foreign keys guarantee: every
transaction row references an existing account row. -/
def txRefsLive (db : DB) : Prop :=
  ∀ t ∈ db.transactions, (findAccount db t.accountId).isSome

/-- The conjunction of the store-level invariants together with the
balance invariant. -/
def GoodDB (init : Nat → Int) (db : DB) : Prop :=
  WfDB db ∧ txRefsLive db ∧ balanceInv init db

/-- One inbound ledger mutation. -/
inductive LedgerOp where
  | create (v : InsertTx)
  | update (id userId : Nat) (p : TxPatch)
  | delete (id userId : Nat)
deriving DecidableEq, Repr

/-- The state a mutation leaves behind (a failed call leaves the state it
reached when it threw). -/
def applyOp (db : DB) : LedgerOp → DB
  | .create v => (createTransaction db v).1
  | .update id userId p => (updateTransaction db id userId p).1
  | .delete id userId => (deleteTransaction db id userId).1

/-- A sequence of ledger mutations, applied in order. -/
def runOps (db : DB) : List LedgerOp → DB
  | [] => db
  | op :: rest => runOps (applyOp db op) rest

/-! ## Interleaving model of the balance adjustment (concurrency)

`createTransaction` adjusts the balance with three separate store
accesses (storage.ts:224, 231, 233-235): the transaction insert, a
`select` of the current balance into the local `currentBalance`, and an
unconditional `update` writing `currentBalance + balanceChange`.  Two
concurrent calls against the same account interleave these primitive
accesses; the store serializes each single access. -/

/-- The private state of one in-flight `createTransaction` call: its
balance delta, its program counter over the three accesses, and the
`currentBalance` it read. -/
structure CreateProc where
  balanceChange : Int
  pc : Nat
  currentBalance : Int
deriving DecidableEq, Repr

/-- One primitive store access of an in-flight call, against the shared
account balance: pc 0 = insert the transaction row (does not touch the
balance), pc 1 = `select` the balance, pc 2 = `update` the balance to
`currentBalance + balanceChange`, unconditionally. -/
def stepCreate (bal : Int) (p : CreateProc) : Int × CreateProc :=
  match p.pc with
  | 0 => (bal, { p with pc := 1 })
  | 1 => (bal, { p with pc := 2, currentBalance := bal })
  | 2 => (p.currentBalance + p.balanceChange, { p with pc := 3 })
  | _ => (bal, p)

/-- Run two concurrent `createTransaction` calls under a schedule:
`true` steps the first call, `false` the second. -/
def runSchedule : List Bool → Int × CreateProc × CreateProc → Int × CreateProc × CreateProc
  | [], s => s
  | b :: rest, (bal, p, q) =>
    if b then
      let s := stepCreate bal p
      runSchedule rest (s.1, s.2, q)
    else
      let s := stepCreate bal q
      runSchedule rest (s.1, p, s.2)

/-- The final shared balance after two concurrent `createTransaction`
calls with deltas `d1`, `d2` run to completion under `sched`, starting
from balance `b0`. -/
def finalBalance (sched : List Bool) (b0 d1 d2 : Int) : Int :=
  (runSchedule sched (b0, { balanceChange := d1, pc := 0, currentBalance := 0 },
    { balanceChange := d2, pc := 0, currentBalance := 0 })).1

/-- The insert the generation loop builds from a due definition. -/
def recurInsert (r : Recur) (now : Int) : InsertTx :=
  { amount := r.amount, date := now, description := r.description,
    type := r.type, accountId := r.accountId, categoryId := r.categoryId,
    userId := r.userId }

/-- `nextRunDate` after `j` generations, starting from `t`. -/
def iterNextRun (freq : Freq) : Nat → Int → Int
  | 0, t => t
  | j + 1, t => iterNextRun freq j (advanceDays freq t)

/-! ## Concrete states used to instantiate the theorems -/

/-- Account balances at creation time for the example store (all zero). -/
def exInit : Nat → Int := fun _ => 0

/-- Example store: one user, one account, one category. -/
def exDb : DB := ⟨[1], [⟨1, 1, 0⟩], [⟨1, 1⟩], [], [], 1⟩

/-- Example mutation sequence: create an income of 100, raise it to 150,
delete it. -/
def exOps : List LedgerOp :=
  [.create ⟨100, 5, "salary", .income, 1, 1, 1⟩,
   .update 1 1 { amount := some 150 },
   .delete 1 1]

/-- Spec §8 net-delta scenario: account balance 600, income transaction of
100 on it. -/
def c2db1 : DB := ⟨[1], [⟨1, 1, 600⟩], [⟨1, 1⟩], [⟨1, 100, 0, "t", .income, 1, 1, 1⟩], [], 2⟩

/-- Spec §8 type-flip scenario: account balance 650, income transaction of
100 on it. -/
def c2db2 : DB := ⟨[1], [⟨1, 1, 650⟩], [⟨1, 1⟩], [⟨1, 100, 0, "t", .income, 1, 1, 1⟩], [], 2⟩

/-- The patch changing only the amount to 150. -/
def c2patchAmount : TxPatch := { amount := some 150 }

/-- The patch flipping only the type to expense. -/
def c2patchType : TxPatch := { type := some TxType.expense }

/-- Round-trip scenario input. -/
def c3v : InsertTx := ⟨100, 5, "bonus", .income, 1, 1, 1⟩

/-- Ownership scenario: account 1 and category 1 belong to user 2, the
store also holds user 1. -/
def c5xdb : DB := ⟨[1, 2], [⟨1, 2, 0⟩], [⟨1, 2⟩], [], [], 1⟩

/-- A call by user 1 against user 2's account and category, with a
negative amount. -/
def c5xv : InsertTx := ⟨-50, 0, "x", .income, 1, 1, 1⟩

/-- A due daily definition whose owner row (`userId` 99) does not exist,
over a live account and category. -/
def c6r1 : Recur := ⟨1, 5, "a", .income, .daily, 0, 2, 2, 99, true⟩

/-- A due daily definition with all references live. -/
def c6r2 : Recur := ⟨2, 7, "b", .income, .daily, 0, 2, 2, 1, true⟩

/-- Store with the two due definitions above. -/
def c6db : DB := ⟨[1], [⟨2, 1, 0⟩], [⟨2, 1⟩], [], [c6r1, c6r2], 1⟩

/-- A single due daily definition over live references. -/
def c7r : Recur := ⟨1, 5, "rent", .income, .daily, 0, 1, 1, 1, true⟩

/-- Store with only that due definition. -/
def c7db : DB := ⟨[1], [⟨1, 1, 0⟩], [⟨1, 1⟩], [], [c7r], 1⟩

/-- An active, due definition whose account row is missing. -/
def c10r : Recur := ⟨1, 5, "x", .income, .daily, 0, 7, 1, 1, true⟩

/-- Store holding that dangling definition. -/
def c10db : DB := ⟨[1], [⟨1, 1, 0⟩], [⟨1, 1⟩], [], [c10r], 1⟩

/-! ## Store-level helper lemmas -/

lemma findAccount_id {db : DB} {j : Nat} {a : Account}
    (h : findAccount db j = some a) : a.id = j := by
  have := List.find?_some h
  simpa using this

lemma findAccount_mem {db : DB} {j : Nat} {a : Account}
    (h : findAccount db j = some a) : a ∈ db.accounts :=
  List.mem_of_find?_eq_some h

lemma findAccount_setBalance (db : DB) (i : Nat) (b : Int) (j : Nat) :
    findAccount (setBalance db i b) j =
      (findAccount db j).map (fun a => if a.id == i then { a with balance := b } else a) := by
  show (db.accounts.map _).find? _ = _
  rw [List.find?_map]
  congr 1
  unfold findAccount
  congr 1
  funext a
  by_cases h : a.id = i <;> simp [Function.comp, h]

lemma isSome_findAccount_setBalance (db : DB) (i : Nat) (b : Int) (j : Nat) :
    (findAccount (setBalance db i b) j).isSome = (findAccount db j).isSome := by
  rw [findAccount_setBalance]
  cases findAccount db j <;> rfl

@[simp] lemma txSum_nil (j : Nat) : txSum [] j = 0 := rfl

@[simp] lemma txSum_cons (t : Txn) (txs : List Txn) (j : Nat) :
    txSum (t :: txs) j = (if t.accountId = j then signedAmount t else 0) + txSum txs j := by
  simp [txSum]

lemma txSum_append (l1 l2 : List Txn) (j : Nat) :
    txSum (l1 ++ l2) j = txSum l1 j + txSum l2 j := by
  simp [txSum]

lemma getTransaction_spec {db : DB} {i u : Nat} {t0 : Txn}
    (h : getTransaction db i u = some t0) :
    t0 ∈ db.transactions ∧ t0.id = i ∧ t0.userId = u := by
  refine ⟨List.mem_of_find?_eq_some h, ?_, ?_⟩ <;>
    · have := List.find?_some h
      simp at this
      tauto

lemma find?_append_of_none {α : Type} {l1 l2 : List α} {p : α → Bool}
    (h : ∀ a ∈ l1, p a = false) : (l1 ++ l2).find? p = l2.find? p := by
  induction l1 with
  | nil => rfl
  | cons a l ih =>
    have ha := h a (List.mem_cons_self a l)
    rw [List.cons_append, List.find?_cons, ha]
    exact ih (fun b hb => h b (List.mem_cons_of_mem a hb))

/-- Updating the one row matching `id`/`userId` changes the signed sum by
removing the original row's contribution and adding the patched row's. -/
lemma txSum_map_patch {txs : List Txn} {id userId : Nat} {t0 : Txn} {p : TxPatch}
    (hfind : txs.find? (fun t => t.id == id && t.userId == userId) = some t0)
    (hnd : txs.Pairwise (fun s t => s.id ≠ t.id)) (j : Nat) :
    txSum (txs.map (fun t =>
        if t.id == id && t.userId == userId then applyPatch t p else t)) j
      = txSum txs j - (if t0.accountId = j then signedAmount t0 else 0)
        + (if (applyPatch t0 p).accountId = j then signedAmount (applyPatch t0 p) else 0) := by
  induction txs with
  | nil => simp at hfind
  | cons t rest ih =>
    rcases List.pairwise_cons.mp hnd with ⟨hhead, htail⟩
    by_cases hp : (t.id == id && t.userId == userId) = true
    · rw [List.find?_cons, hp] at hfind
      obtain rfl : t = t0 := Option.some.inj hfind
      have hid : t.id = id := by simp at hp; exact hp.1
      have hrest : rest.map (fun t =>
          if t.id == id && t.userId == userId then applyPatch t p else t) = rest := by
        have hfix : ∀ s ∈ rest,
            (if s.id == id && s.userId == userId then applyPatch s p else s) = s := by
          intro s hs
          have hns : ¬(s.id == id && s.userId == userId) = true := by
            simp only [Bool.and_eq_true, beq_iff_eq]
            rintro ⟨h1, -⟩
            exact hhead s hs (by rw [hid, h1])
          simp [hns]
        rw [List.map_congr_left hfix]
        simp
      rw [List.map_cons, if_pos hp, hrest, txSum_cons, txSum_cons]
      ring
    · have hp2 : (t.id == id && t.userId == userId) = false := by simpa using hp
      rw [List.find?_cons, hp2] at hfind
      rw [List.map_cons, if_neg hp, txSum_cons, txSum_cons, ih hfind htail]
      ring

/-- Deleting the rows matching `id`/`userId` removes exactly the found
row's contribution from the signed sum. -/
lemma txSum_filter_out {txs : List Txn} {id userId : Nat} {t0 : Txn}
    (hfind : txs.find? (fun t => t.id == id && t.userId == userId) = some t0)
    (hnd : txs.Pairwise (fun s t => s.id ≠ t.id)) (j : Nat) :
    txSum (txs.filter (fun t => !(t.id == id && t.userId == userId))) j
      = txSum txs j - (if t0.accountId = j then signedAmount t0 else 0) := by
  induction txs with
  | nil => simp at hfind
  | cons t rest ih =>
    rcases List.pairwise_cons.mp hnd with ⟨hhead, htail⟩
    by_cases hp : (t.id == id && t.userId == userId) = true
    · rw [List.find?_cons, hp] at hfind
      obtain rfl : t = t0 := Option.some.inj hfind
      have hid : t.id = id := by simp at hp; exact hp.1
      have hrest : rest.filter (fun t => !(t.id == id && t.userId == userId)) = rest := by
        apply List.filter_eq_self.mpr
        intro s hs
        have hns : ¬(s.id == id && s.userId == userId) = true := by
          simp only [Bool.and_eq_true, beq_iff_eq]
          rintro ⟨h1, -⟩
          exact hhead s hs (by rw [hid, h1])
        simp [hns]
      rw [List.filter_cons, hp, hrest]
      simp only [Bool.not_true, if_neg (by simp : ¬(false = true)), txSum_cons]
      ring
    · have hp2 : (t.id == id && t.userId == userId) = false := by simpa using hp
      rw [List.find?_cons, hp2] at hfind
      rw [List.filter_cons, hp2]
      simp only [Bool.not_false]
      rw [if_pos trivial, txSum_cons, txSum_cons, ih hfind htail]
      ring

@[simp] lemma setBalance_transactions (db : DB) (i : Nat) (b : Int) :
    (setBalance db i b).transactions = db.transactions := rfl

@[simp] lemma setBalance_users (db : DB) (i : Nat) (b : Int) :
    (setBalance db i b).users = db.users := rfl

@[simp] lemma setBalance_categories (db : DB) (i : Nat) (b : Int) :
    (setBalance db i b).categories = db.categories := rfl

@[simp] lemma setBalance_recurring (db : DB) (i : Nat) (b : Int) :
    (setBalance db i b).recurring = db.recurring := rfl

@[simp] lemma setBalance_nextTxId (db : DB) (i : Nat) (b : Int) :
    (setBalance db i b).nextTxId = db.nextTxId := rfl

lemma signedAmount_eq_ite (t : Txn) :
    signedAmount t = if t.type = TxType.income then t.amount else -t.amount := by
  cases h : t.type <;> simp [signedAmount, h]

lemma neg_signedAmount_eq_ite (t : Txn) :
    (if t.type = TxType.income then -t.amount else t.amount) = -signedAmount t := by
  cases h : t.type <;> simp [signedAmount, h]

/-! ## Characterizations of the three mutations -/

lemma createTransaction_of_fail {db : DB} {v : InsertTx}
    (h : insertTxOk db v = false) :
    createTransaction db v = (db, .error .fkViolation) := by
  simp [createTransaction, insertTx, h]

lemma createTransaction_of_ok {db : DB} {v : InsertTx} {acct : Account}
    (h : insertTxOk db v = true)
    (hacct : findAccount db v.accountId = some acct) :
    createTransaction db v =
      (setBalance (insertedDB db v) v.accountId (acct.balance + signedAmount (mkTx db v)),
       .ok (mkTx db v)) := by
  have hacct1 : findAccount (insertedDB db v) (mkTx db v).accountId = some acct := hacct
  unfold createTransaction insertTx
  rw [if_pos h]
  dsimp only
  rw [hacct1, signedAmount_eq_ite]
  rfl

@[simp] lemma insertedDB_accounts (db : DB) (v : InsertTx) :
    (insertedDB db v).accounts = db.accounts := rfl

@[simp] lemma insertedDB_transactions (db : DB) (v : InsertTx) :
    (insertedDB db v).transactions = db.transactions ++ [mkTx db v] := rfl

@[simp] lemma insertedDB_nextTxId (db : DB) (v : InsertTx) :
    (insertedDB db v).nextTxId = db.nextTxId + 1 := rfl

@[simp] lemma txPatchedDB_accounts (db : DB) (id userId : Nat) (p : TxPatch) :
    (txPatchedDB db id userId p).accounts = db.accounts := rfl

@[simp] lemma txPatchedDB_nextTxId (db : DB) (id userId : Nat) (p : TxPatch) :
    (txPatchedDB db id userId p).nextTxId = db.nextTxId := rfl

@[simp] lemma txRemovedDB_accounts (db : DB) (id userId : Nat) :
    (txRemovedDB db id userId).accounts = db.accounts := rfl

@[simp] lemma txRemovedDB_nextTxId (db : DB) (id userId : Nat) :
    (txRemovedDB db id userId).nextTxId = db.nextTxId := rfl

@[simp] lemma applyPatch_id (t : Txn) (p : TxPatch) : (applyPatch t p).id = t.id := rfl

@[simp] lemma applyPatch_userId (t : Txn) (p : TxPatch) : (applyPatch t p).userId = t.userId := rfl

lemma findAccount_insertedDB (db : DB) (v : InsertTx) (j : Nat) :
    findAccount (insertedDB db v) j = findAccount db j := rfl

lemma findAccount_txPatchedDB (db : DB) (id userId : Nat) (p : TxPatch) (j : Nat) :
    findAccount (txPatchedDB db id userId p) j = findAccount db j := rfl

lemma setBalanceRow_id (i : Nat) (b : Int) (a : Account) :
    (if a.id == i then { a with balance := b } else a).id = a.id := by
  by_cases h : a.id = i <;> simp [h]

lemma setBalance_pairwise {db : DB} {i : Nat} {b : Int}
    (h : db.accounts.Pairwise (fun x y => x.id ≠ y.id)) :
    (setBalance db i b).accounts.Pairwise (fun x y => x.id ≠ y.id) := by
  unfold setBalance
  dsimp only
  rw [List.pairwise_map]
  exact h.imp (fun hxy => by rwa [setBalanceRow_id, setBalanceRow_id])

/-- Two rows of a key-unique list with the same key are the same row. -/
lemma eq_of_pairwise_key {α : Type} (key : α → Nat) {l : List α}
    (h : l.Pairwise (fun x y => key x ≠ key y)) {x y : α}
    (hx : x ∈ l) (hy : y ∈ l) (hk : key x = key y) : x = y := by
  induction l with
  | nil => cases hx
  | cons a rest ih =>
    rcases List.pairwise_cons.mp h with ⟨hhead, htail⟩
    rcases List.mem_cons.mp hx with rfl | hx2
    · rcases List.mem_cons.mp hy with rfl | hy2
      · rfl
      · exact absurd hk (hhead y hy2)
    · rcases List.mem_cons.mp hy with rfl | hy2
      · exact absurd hk.symm (hhead x hx2)
      · exact ih htail hx2 hy2

/-- In a key-unique account table, `findAccount` at a member's id returns
that member. -/
lemma findAccount_unique {db : DB} {a : Account} {j : Nat}
    (hW : db.accounts.Pairwise (fun x y => x.id ≠ y.id))
    (ha : a ∈ db.accounts) (haj : a.id = j) : findAccount db j = some a := by
  cases hf : findAccount db j with
  | none =>
    have := List.find?_eq_none.mp hf a ha
    simp [haj] at this
  | some b =>
    have hbj : b.id = j := findAccount_id hf
    have hbm : b ∈ db.accounts := findAccount_mem hf
    have : b = a := eq_of_pairwise_key (fun x => x.id) hW hbm ha (by simp [hbj, haj])
    rw [this]

lemma updateTransaction_of_notFound {db : DB} {id userId : Nat} {p : TxPatch}
    (h0 : getTransaction db id userId = none) :
    updateTransaction db id userId p = (db, .error .notFound) := by
  unfold updateTransaction
  rw [h0]

lemma updateTransaction_of_badPatch {db : DB} {id userId : Nat} {p : TxPatch} {t0 : Txn}
    (h0 : getTransaction db id userId = some t0)
    (hfk : patchRefsOk db p.accountId p.categoryId = false) :
    updateTransaction db id userId p = (db, .error .fkViolation) := by
  unfold updateTransaction updateTxRow
  rw [h0, if_neg (by simp [hfk])]

lemma updateTransaction_of_ok {db : DB} {id userId : Nat} {p : TxPatch}
    {t0 : Txn} {acct0 acct1 : Account}
    (h0 : getTransaction db id userId = some t0)
    (hfk : patchRefsOk db p.accountId p.categoryId = true)
    (hA0 : findAccount db t0.accountId = some acct0)
    (hA1 : findAccount db (applyPatch t0 p).accountId = some acct1) :
    updateTransaction db id userId p =
      (setBalance
        (setBalance (txPatchedDB db id userId p) t0.accountId
          (acct0.balance - signedAmount t0))
        (applyPatch t0 p).accountId
        ((if acct1.id = t0.accountId then acct0.balance - signedAmount t0
          else acct1.balance) + signedAmount (applyPatch t0 p)),
       .ok (applyPatch t0 p)) := by
  have hA0p : findAccount (txPatchedDB db id userId p) t0.accountId = some acct0 := hA0
  unfold updateTransaction updateTxRow
  rw [h0, if_pos hfk]
  dsimp only [Option.map]
  rw [hA0p]
  dsimp only
  rw [findAccount_setBalance, findAccount_txPatchedDB, hA1]
  dsimp only [Option.map]
  rw [neg_signedAmount_eq_ite t0, signedAmount_eq_ite (applyPatch t0 p)]
  rw [← sub_eq_add_neg]
  by_cases hid : acct1.id = t0.accountId
  · rw [if_pos (by simp [hid] : (acct1.id == t0.accountId) = true), if_pos hid]
  · rw [if_neg (by simp [hid] : ¬(acct1.id == t0.accountId) = true), if_neg hid]

lemma deleteTransaction_of_notFound {db : DB} {id userId : Nat}
    (h0 : getTransaction db id userId = none) :
    deleteTransaction db id userId = (db, .error .notFound) := by
  unfold deleteTransaction
  rw [h0]

lemma deleteTransaction_of_ok {db : DB} {id userId : Nat} {t0 : Txn} {acct0 : Account}
    (h0 : getTransaction db id userId = some t0)
    (hA0 : findAccount db t0.accountId = some acct0) :
    deleteTransaction db id userId =
      (txRemovedDB (setBalance db t0.accountId (acct0.balance - signedAmount t0)) id userId,
       .ok ()) := by
  unfold deleteTransaction
  rw [h0]
  dsimp only
  rw [hA0]
  dsimp only
  rw [neg_signedAmount_eq_ite t0, ← sub_eq_add_neg]

lemma insertTxOk_findAccount {db : DB} {v : InsertTx} (h : insertTxOk db v = true) :
    ∃ acct, findAccount db v.accountId = some acct := by
  simp only [insertTxOk, Bool.and_eq_true] at h
  exact Option.isSome_iff_exists.mp h.1.1

lemma applyPatch_accountId_none {t : Txn} {p : TxPatch} (h : p.accountId = none) :
    (applyPatch t p).accountId = t.accountId := by
  simp [applyPatch, h]

lemma applyPatch_accountId_some {t : Txn} {p : TxPatch} {a : Nat} (h : p.accountId = some a) :
    (applyPatch t p).accountId = a := by
  simp [applyPatch, h]

lemma patchRefsOk_account {db : DB} {p : TxPatch} {a : Nat}
    (h : patchRefsOk db p.accountId p.categoryId = true) (ha : p.accountId = some a) :
    (findAccount db a).isSome := by
  simp only [patchRefsOk, ha, Bool.and_eq_true] at h
  exact h.1

/-- A failed create leaves the store unchanged (the only failing access is
the insert itself). -/
lemma createTransaction_err {db : DB} {v : InsertTx} {e : DbErr}
    (h : (createTransaction db v).2 = .error e) :
    (createTransaction db v).1 = db := by
  cases hok : insertTxOk db v with
  | false => rw [createTransaction_of_fail hok]
  | true =>
    obtain ⟨acct, hacct⟩ := insertTxOk_findAccount hok
    rw [createTransaction_of_ok hok hacct] at h
    simp at h

/-- Existence of the account row for the patched transaction, given the
foreign keys and referential integrity. -/
lemma patched_account_exists {db : DB} {p : TxPatch} {t0 : Txn}
    (hlive : (findAccount db t0.accountId).isSome)
    (hfk : patchRefsOk db p.accountId p.categoryId = true) :
    ∃ acct1, findAccount db (applyPatch t0 p).accountId = some acct1 := by
  cases hacc : p.accountId with
  | none =>
    obtain ⟨acct0, hA0⟩ := Option.isSome_iff_exists.mp hlive
    exact ⟨acct0, by rw [applyPatch_accountId_none hacc]; exact hA0⟩
  | some a =>
    obtain ⟨acct1, h1⟩ := Option.isSome_iff_exists.mp (patchRefsOk_account hfk hacc)
    exact ⟨acct1, by rw [applyPatch_accountId_some hacc]; exact h1⟩

/-- A failed update leaves the store unchanged, provided every transaction
row references a live account (which the schema's foreign keys enforce). -/
lemma updateTransaction_err {db : DB} {id userId : Nat} {p : TxPatch} {e : DbErr}
    (hlive : txRefsLive db)
    (h : (updateTransaction db id userId p).2 = .error e) :
    (updateTransaction db id userId p).1 = db := by
  cases h0 : getTransaction db id userId with
  | none => rw [updateTransaction_of_notFound h0]
  | some t0 =>
    cases hfk : patchRefsOk db p.accountId p.categoryId with
    | false => rw [updateTransaction_of_badPatch h0 hfk]
    | true =>
      obtain ⟨acct0, hA0⟩ := Option.isSome_iff_exists.mp (hlive t0 (getTransaction_spec h0).1)
      obtain ⟨acct1, hA1⟩ := patched_account_exists (by rw [hA0]; rfl) hfk
      rw [updateTransaction_of_ok h0 hfk hA0 hA1] at h
      simp at h

/-- A failed delete leaves the store unchanged, under the same
referential-integrity condition. -/
lemma deleteTransaction_err {db : DB} {id userId : Nat} {e : DbErr}
    (hlive : txRefsLive db)
    (h : (deleteTransaction db id userId).2 = .error e) :
    (deleteTransaction db id userId).1 = db := by
  cases h0 : getTransaction db id userId with
  | none => rw [deleteTransaction_of_notFound h0]
  | some t0 =>
    obtain ⟨acct0, hA0⟩ := Option.isSome_iff_exists.mp (hlive t0 (getTransaction_spec h0).1)
    rw [deleteTransaction_of_ok h0 hA0] at h
    simp at h

lemma findAccount_txRemovedDB (db : DB) (id userId : Nat) (j : Nat) :
    findAccount (txRemovedDB db id userId) j = findAccount db j := rfl

/-- On every account, a successful create adds the new transaction's
signed amount to the referenced account's balance and leaves the other
balances alone. -/
lemma createTransaction_balance_effect {db : DB} {v : InsertTx} {acct : Account}
    (hok : insertTxOk db v = true)
    (hacct : findAccount db v.accountId = some acct) (j : Nat) :
    findAccount (createTransaction db v).1 j
      = (findAccount db j).map (fun a => { a with balance := a.balance
          + (if v.accountId = a.id then signedAmount (mkTx db v) else 0) }) := by
  rw [createTransaction_of_ok hok hacct]
  dsimp only
  rw [findAccount_setBalance, findAccount_insertedDB]
  cases hj : findAccount db j with
  | none => rfl
  | some a =>
    have haj : a.id = j := findAccount_id hj
    dsimp only [Option.map]
    by_cases h1 : v.accountId = a.id
    · have ha0 : acct = a := by
        rw [h1, haj] at hacct
        rw [hacct] at hj
        exact Option.some.inj hj
      rw [ha0]
      have c1 : (a.id == v.accountId) = true := by simp only [beq_iff_eq]; exact h1.symm
      rw [if_pos c1, if_pos h1]
    · have c1 : ¬(a.id == v.accountId) = true := by
        simp only [beq_iff_eq]
        exact fun h => h1 h.symm
      rw [if_neg c1, if_neg h1]
      simp

/-- On every account, a successful delete subtracts the removed
transaction's signed amount from its account's balance. -/
lemma deleteTransaction_balance_effect {db : DB} {id userId : Nat} {t0 : Txn} {acct0 : Account}
    (h0 : getTransaction db id userId = some t0)
    (hA0 : findAccount db t0.accountId = some acct0) (j : Nat) :
    findAccount (deleteTransaction db id userId).1 j
      = (findAccount db j).map (fun a => { a with balance := a.balance
          - (if t0.accountId = a.id then signedAmount t0 else 0) }) := by
  rw [deleteTransaction_of_ok h0 hA0]
  dsimp only
  rw [findAccount_txRemovedDB, findAccount_setBalance]
  cases hj : findAccount db j with
  | none => rfl
  | some a =>
    have haj : a.id = j := findAccount_id hj
    dsimp only [Option.map]
    by_cases h1 : t0.accountId = a.id
    · have ha0 : acct0 = a := by
        rw [h1, haj] at hA0
        rw [hA0] at hj
        exact Option.some.inj hj
      rw [ha0]
      have c1 : (a.id == t0.accountId) = true := by simp only [beq_iff_eq]; exact h1.symm
      rw [if_pos c1, if_pos h1]
    · have c1 : ¬(a.id == t0.accountId) = true := by
        simp only [beq_iff_eq]
        exact fun h => h1 h.symm
      rw [if_neg c1, if_neg h1]
      simp

/-- On every account, a successful update is exactly "undo the original
transaction's delta, apply the patched transaction's delta". -/
lemma updateTransaction_balance_effect {db : DB} {id userId : Nat} {p : TxPatch}
    {t0 : Txn} {acct0 acct1 : Account}
    (h0 : getTransaction db id userId = some t0)
    (hfk : patchRefsOk db p.accountId p.categoryId = true)
    (hA0 : findAccount db t0.accountId = some acct0)
    (hA1 : findAccount db (applyPatch t0 p).accountId = some acct1) (j : Nat) :
    findAccount (updateTransaction db id userId p).1 j
      = (findAccount db j).map (fun a => { a with balance := a.balance
          - (if t0.accountId = a.id then signedAmount t0 else 0)
          + (if (applyPatch t0 p).accountId = a.id then signedAmount (applyPatch t0 p) else 0) }) := by
  rw [updateTransaction_of_ok h0 hfk hA0 hA1]
  dsimp only
  rw [findAccount_setBalance, findAccount_setBalance, findAccount_txPatchedDB]
  cases hj : findAccount db j with
  | none => rfl
  | some a =>
    have haj : a.id = j := findAccount_id hj
    dsimp only [Option.map]
    by_cases h1 : t0.accountId = a.id
    · have ha0 : acct0 = a := by
        rw [h1, haj] at hA0
        rw [hA0] at hj
        exact Option.some.inj hj
      rw [ha0]
      have c1 : (a.id == t0.accountId) = true := by simp only [beq_iff_eq]; exact h1.symm
      rw [if_pos c1]
      by_cases h2 : (applyPatch t0 p).accountId = a.id
      · have ha1 : acct1 = a := by
          rw [h2, haj] at hA1
          rw [hA1] at hj
          exact Option.some.inj hj
        rw [ha1]
        have c2 : (a.id == (applyPatch t0 p).accountId) = true := by
          simp only [beq_iff_eq]
          exact h2.symm
        rw [if_pos c2, if_pos h1.symm, if_pos h1, if_pos h2]
      · have c2 : ¬(a.id == (applyPatch t0 p).accountId) = true := by
          simp only [beq_iff_eq]
          exact fun h => h2 h.symm
        rw [if_neg c2, if_pos h1, if_neg h2]
        simp
    · have c1 : ¬(a.id == t0.accountId) = true := by
        simp only [beq_iff_eq]
        exact fun h => h1 h.symm
      rw [if_neg c1]
      by_cases h2 : (applyPatch t0 p).accountId = a.id
      · have ha1 : acct1 = a := by
          rw [h2, haj] at hA1
          rw [hA1] at hj
          exact Option.some.inj hj
        rw [ha1]
        have c2 : (a.id == (applyPatch t0 p).accountId) = true := by
          simp only [beq_iff_eq]
          exact h2.symm
        rw [if_pos c2, if_neg (fun h => h1 h.symm), if_neg h1, if_pos h2]
        simp
      · have c2 : ¬(a.id == (applyPatch t0 p).accountId) = true := by
          simp only [beq_iff_eq]
          exact fun h => h2 h.symm
        rw [if_neg c2, if_neg h1, if_neg h2]
        simp

/-- Every create call — successful or failed — preserves the store
invariants and the balance invariant. -/
lemma GoodDB_create (init : Nat → Int) {db : DB} (hg : GoodDB init db) (v : InsertTx) :
    GoodDB init (createTransaction db v).1 := by
  obtain ⟨⟨hWa, hWt, hWn⟩, hlive, hbal⟩ := hg
  cases hok : insertTxOk db v with
  | false =>
    rw [createTransaction_of_fail hok]
    exact ⟨⟨hWa, hWt, hWn⟩, hlive, hbal⟩
  | true =>
    obtain ⟨acct, hacct⟩ := insertTxOk_findAccount hok
    have htx : (createTransaction db v).1.transactions = db.transactions ++ [mkTx db v] := by
      rw [createTransaction_of_ok hok hacct]
      rfl
    have hntx : (createTransaction db v).1.nextTxId = db.nextTxId + 1 := by
      rw [createTransaction_of_ok hok hacct]
      rfl
    have hfa := createTransaction_balance_effect hok hacct
    have hkey : ∀ j, (findAccount (createTransaction db v).1 j).isSome
        = (findAccount db j).isSome := by
      intro j
      rw [hfa j]
      cases findAccount db j <;> rfl
    have hWa' : (createTransaction db v).1.accounts.Pairwise (fun x y => x.id ≠ y.id) := by
      rw [createTransaction_of_ok hok hacct]
      exact setBalance_pairwise hWa
    have hWt' : (createTransaction db v).1.transactions.Pairwise (fun s t => s.id ≠ t.id) := by
      rw [htx]
      apply List.pairwise_append.mpr
      refine ⟨hWt, by simp, ?_⟩
      intro t ht t2 ht2
      have h2 : t2 = mkTx db v := by simpa using ht2
      rw [h2]
      exact Nat.ne_of_lt (hWn t ht)
    have hWn' : ∀ t ∈ (createTransaction db v).1.transactions,
        t.id < (createTransaction db v).1.nextTxId := by
      rw [htx, hntx]
      intro t ht
      rcases List.mem_append.mp ht with h | h
      · exact Nat.lt_succ_of_lt (hWn t h)
      · have h2 : t = mkTx db v := by simpa using h
        rw [h2]
        exact Nat.lt_succ_self db.nextTxId
    refine ⟨⟨hWa', hWt', hWn'⟩, ?_, ?_⟩
    · intro t ht
      rw [htx] at ht
      rcases List.mem_append.mp ht with h | h
      · rw [hkey]
        exact hlive t h
      · have h2 : t = mkTx db v := by simpa using h
        rw [hkey, h2]
        show (findAccount db v.accountId).isSome
        rw [hacct]
        rfl
    · intro a2 ha2
      have hfind : findAccount (createTransaction db v).1 a2.id = some a2 :=
        findAccount_unique hWa' ha2 rfl
      rw [hfa a2.id] at hfind
      obtain ⟨a, ha, hfa2⟩ := Option.map_eq_some'.mp hfind
      have hbala := hbal a (findAccount_mem ha)
      rw [← hfa2, htx, txSum_append]
      dsimp only
      rw [hbala]
      have hone : txSum [mkTx db v] a.id
          = (if v.accountId = a.id then signedAmount (mkTx db v) else 0) := by
        rw [show txSum [mkTx db v] a.id = (if (mkTx db v).accountId = a.id
            then signedAmount (mkTx db v) else 0) + txSum [] a.id from txSum_cons _ _ _]
        rw [txSum_nil, add_zero]
        rfl
      rw [hone]
      ring

lemma patchRow_id (id userId : Nat) (p : TxPatch) (t : Txn) :
    (if t.id == id && t.userId == userId then applyPatch t p else t).id = t.id := by
  by_cases h : (t.id == id && t.userId == userId) = true <;> simp [h]

/-- Every update call — successful or failed — preserves the store
invariants and the balance invariant. -/
lemma GoodDB_update (init : Nat → Int) {db : DB} (hg : GoodDB init db)
    (id userId : Nat) (p : TxPatch) :
    GoodDB init (updateTransaction db id userId p).1 := by
  obtain ⟨⟨hWa, hWt, hWn⟩, hlive, hbal⟩ := hg
  cases h0 : getTransaction db id userId with
  | none =>
    rw [updateTransaction_of_notFound h0]
    exact ⟨⟨hWa, hWt, hWn⟩, hlive, hbal⟩
  | some t0 =>
    cases hfk : patchRefsOk db p.accountId p.categoryId with
    | false =>
      rw [updateTransaction_of_badPatch h0 hfk]
      exact ⟨⟨hWa, hWt, hWn⟩, hlive, hbal⟩
    | true =>
      obtain ⟨acct0, hA0⟩ := Option.isSome_iff_exists.mp (hlive t0 (getTransaction_spec h0).1)
      obtain ⟨acct1, hA1⟩ := patched_account_exists (by rw [hA0]; rfl) hfk
      have htx : (updateTransaction db id userId p).1.transactions
          = db.transactions.map (fun t =>
              if t.id == id && t.userId == userId then applyPatch t p else t) := by
        rw [updateTransaction_of_ok h0 hfk hA0 hA1]
        rfl
      have hntx : (updateTransaction db id userId p).1.nextTxId = db.nextTxId := by
        rw [updateTransaction_of_ok h0 hfk hA0 hA1]
        rfl
      have hfa := updateTransaction_balance_effect h0 hfk hA0 hA1
      have hkey : ∀ j, (findAccount (updateTransaction db id userId p).1 j).isSome
          = (findAccount db j).isSome := by
        intro j
        rw [hfa j]
        cases findAccount db j <;> rfl
      have hWa' : (updateTransaction db id userId p).1.accounts.Pairwise
          (fun x y => x.id ≠ y.id) := by
        rw [updateTransaction_of_ok h0 hfk hA0 hA1]
        exact setBalance_pairwise (setBalance_pairwise hWa)
      have hWt' : (updateTransaction db id userId p).1.transactions.Pairwise
          (fun s t => s.id ≠ t.id) := by
        rw [htx, List.pairwise_map]
        exact hWt.imp (fun hst => by rwa [patchRow_id, patchRow_id])
      have hWn' : ∀ t ∈ (updateTransaction db id userId p).1.transactions,
          t.id < (updateTransaction db id userId p).1.nextTxId := by
        rw [htx, hntx]
        intro t ht
        obtain ⟨s, hs, rfl⟩ := List.mem_map.mp ht
        rw [patchRow_id]
        exact hWn s hs
      refine ⟨⟨hWa', hWt', hWn'⟩, ?_, ?_⟩
      · intro t ht
        rw [htx] at ht
        obtain ⟨s, hs, rfl⟩ := List.mem_map.mp ht
        rw [hkey]
        by_cases hpred : (s.id == id && s.userId == userId) = true
        · have hs0 : s = t0 := by
            apply eq_of_pairwise_key (fun x => x.id) hWt hs (getTransaction_spec h0).1
            have h1 : s.id = id := by simp at hpred; exact hpred.1
            rw [h1, (getTransaction_spec h0).2.1]
          rw [if_pos hpred, hs0]
          show (findAccount db (applyPatch t0 p).accountId).isSome
          rw [hA1]
          rfl
        · rw [if_neg hpred]
          exact hlive s hs
      · intro a2 ha2
        have hfind : findAccount (updateTransaction db id userId p).1 a2.id = some a2 :=
          findAccount_unique hWa' ha2 rfl
        rw [hfa a2.id] at hfind
        obtain ⟨a, ha, hfa2⟩ := Option.map_eq_some'.mp hfind
        have hbala := hbal a (findAccount_mem ha)
        rw [← hfa2, htx]
        dsimp only
        rw [txSum_map_patch h0 hWt a.id, hbala]
        ring

/-- Every delete call — successful or failed — preserves the store
invariants and the balance invariant. -/
lemma GoodDB_delete (init : Nat → Int) {db : DB} (hg : GoodDB init db)
    (id userId : Nat) :
    GoodDB init (deleteTransaction db id userId).1 := by
  obtain ⟨⟨hWa, hWt, hWn⟩, hlive, hbal⟩ := hg
  cases h0 : getTransaction db id userId with
  | none =>
    rw [deleteTransaction_of_notFound h0]
    exact ⟨⟨hWa, hWt, hWn⟩, hlive, hbal⟩
  | some t0 =>
    obtain ⟨acct0, hA0⟩ := Option.isSome_iff_exists.mp (hlive t0 (getTransaction_spec h0).1)
    have htx : (deleteTransaction db id userId).1.transactions
        = db.transactions.filter (fun t => !(t.id == id && t.userId == userId)) := by
      rw [deleteTransaction_of_ok h0 hA0]
      rfl
    have hntx : (deleteTransaction db id userId).1.nextTxId = db.nextTxId := by
      rw [deleteTransaction_of_ok h0 hA0]
      rfl
    have hfa := deleteTransaction_balance_effect h0 hA0
    have hkey : ∀ j, (findAccount (deleteTransaction db id userId).1 j).isSome
        = (findAccount db j).isSome := by
      intro j
      rw [hfa j]
      cases findAccount db j <;> rfl
    have hWa' : (deleteTransaction db id userId).1.accounts.Pairwise
        (fun x y => x.id ≠ y.id) := by
      rw [deleteTransaction_of_ok h0 hA0]
      exact setBalance_pairwise hWa
    have hWt' : (deleteTransaction db id userId).1.transactions.Pairwise
        (fun s t => s.id ≠ t.id) := by
      rw [htx]
      exact hWt.sublist (List.filter_sublist _)
    have hWn' : ∀ t ∈ (deleteTransaction db id userId).1.transactions,
        t.id < (deleteTransaction db id userId).1.nextTxId := by
      rw [htx, hntx]
      intro t ht
      exact hWn t (List.mem_of_mem_filter ht)
    refine ⟨⟨hWa', hWt', hWn'⟩, ?_, ?_⟩
    · intro t ht
      rw [htx] at ht
      rw [hkey]
      exact hlive t (List.mem_of_mem_filter ht)
    · intro a2 ha2
      have hfind : findAccount (deleteTransaction db id userId).1 a2.id = some a2 :=
        findAccount_unique hWa' ha2 rfl
      rw [hfa a2.id] at hfind
      obtain ⟨a, ha, hfa2⟩ := Option.map_eq_some'.mp hfind
      have hbala := hbal a (findAccount_mem ha)
      rw [← hfa2, htx]
      dsimp only
      rw [txSum_filter_out h0 hWt a.id, hbala]
      ring

/-! ## Single-definition scheduler behaviour -/

/-- A pass over a store whose only recurring definition is not yet due
does nothing. -/
lemma generatePass_single_notdue {db : DB} {r : Recur} {now : Int}
    (hrec : db.recurring = [r])
    (h : ¬ r.nextRunDate ≤ now) :
    generatePass db now = { db := db, transactions := [], error := none } := by
  have hdue : getRecurringTransactionsDue db now = [] := by
    unfold getRecurringTransactionsDue
    rw [hrec]
    simp [h]
  unfold generatePass
  rw [hdue]
  rfl

/-- A pass over a store whose only recurring definition is due, active and
fully referenced: one transaction is created and the definition's
`nextRunDate` advances once. -/
lemma generatePass_single_due {db : DB} {r : Recur} {now : Int}
    (hrec : db.recurring = [r])
    (hacc : (findAccount db r.accountId).isSome = true)
    (hcat : (findCategory db r.categoryId).isSome = true)
    (huser : db.users.contains r.userId = true)
    (hact : r.isActive = true)
    (hdue : r.nextRunDate ≤ now) :
    (generatePass db now).error = none ∧
    (generatePass db now).db.recurring
      = [{ r with nextRunDate := advanceDays r.frequency r.nextRunDate }] ∧
    (generatePass db now).db.transactions.length = db.transactions.length + 1 ∧
    (generatePass db now).db.users = db.users ∧
    (generatePass db now).db.categories = db.categories ∧
    (∀ j, (findAccount (generatePass db now).db j).isSome = (findAccount db j).isSome) := by
  have hdueL : getRecurringTransactionsDue db now = [r] := by
    unfold getRecurringTransactionsDue
    rw [hrec]
    simp [hacc, hcat, hact, hdue]
  have hok : insertTxOk db (recurInsert r now) = true := by
    unfold insertTxOk recurInsert
    dsimp only
    rw [hacc, hcat, huser]
    rfl
  obtain ⟨acct, hacct⟩ := insertTxOk_findAccount hok
  have hone : generateOne db now r
      = (recurPatchedDB (setBalance (insertedDB db (recurInsert r now)) r.accountId
            (acct.balance + signedAmount (mkTx db (recurInsert r now)))) r.id r.userId
            { nextRunDate := some (advanceDays r.frequency r.nextRunDate) },
         .ok (mkTx db (recurInsert r now))) := by
    unfold generateOne
    rw [show createTransaction db
        { amount := r.amount, date := now, description := r.description,
          type := r.type, accountId := r.accountId, categoryId := r.categoryId,
          userId := r.userId } = createTransaction db (recurInsert r now) from rfl]
    rw [createTransaction_of_ok hok hacct]
    dsimp only
    unfold updateRecurringTransaction
    rw [if_pos (by rfl)]
    rfl
  have hpass : generatePass db now
      = { db := recurPatchedDB (setBalance (insertedDB db (recurInsert r now)) r.accountId
              (acct.balance + signedAmount (mkTx db (recurInsert r now)))) r.id r.userId
              { nextRunDate := some (advanceDays r.frequency r.nextRunDate) },
          transactions := [mkTx db (recurInsert r now)],
          error := none } := by
    unfold generatePass
    rw [hdueL]
    unfold generateLoop
    rw [hone]
    rfl
  rw [hpass]
  dsimp only
  refine ⟨rfl, ?_, ?_, rfl, rfl, ?_⟩
  · show ((insertedDB db (recurInsert r now)).recurring.map _) = _
    rw [show (insertedDB db (recurInsert r now)).recurring = db.recurring from rfl, hrec]
    simp [applyRecurPatch]
  · show ((insertedDB db (recurInsert r now)).transactions).length = _
    rw [insertedDB_transactions]
    simp
  · intro j
    rw [show findAccount (recurPatchedDB (setBalance (insertedDB db (recurInsert r now)) r.accountId
          (acct.balance + signedAmount (mkTx db (recurInsert r now)))) r.id r.userId
          { nextRunDate := some (advanceDays r.frequency r.nextRunDate) }) j
        = findAccount (setBalance (insertedDB db (recurInsert r now)) r.accountId
          (acct.balance + signedAmount (mkTx db (recurInsert r now)))) j from rfl]
    rw [isSome_findAccount_setBalance, findAccount_insertedDB]

instance {ε α : Type} [DecidableEq ε] [DecidableEq α] : DecidableEq (Except ε α) :=
  fun a b =>
    match a, b with
    | .error e, .error f =>
      if h : e = f then .isTrue (by rw [h]) else .isFalse (fun hh => h (Except.error.inj hh))
    | .ok x, .ok y =>
      if h : x = y then .isTrue (by rw [h]) else .isFalse (fun hh => h (Except.ok.inj hh))
    | .error _, .ok _ => .isFalse (fun hh => Except.noConfusion hh)
    | .ok _, .error _ => .isFalse (fun hh => Except.noConfusion hh)

/-! ## Claim theorems -/

instance decWfDB (db : DB) : Decidable (WfDB db) := by
  unfold WfDB
  infer_instance

instance decTxRefsLive (db : DB) : Decidable (txRefsLive db) := by
  unfold txRefsLive
  infer_instance

instance decBalanceInv (init : Nat → Int) (db : DB) : Decidable (balanceInv init db) := by
  unfold balanceInv
  infer_instance

lemma map_eq_self {α : Type} {l : List α} {f : α → α} (h : ∀ a ∈ l, f a = a) :
    l.map f = l := by
  rw [List.map_congr_left h]
  simp


/-- All three mutations, and hence any sequence of them, preserve the
store invariants and the balance invariant. -/
lemma GoodDB_runOps (init : Nat → Int) {db : DB} (hg : GoodDB init db)
    (ops : List LedgerOp) : GoodDB init (runOps db ops) := by
  induction ops generalizing db with
  | nil => exact hg
  | cons op rest ih =>
    cases op with
    | create v => exact ih (GoodDB_create init hg v)
    | update id userId p => exact ih (GoodDB_update init hg id userId p)
    | delete id userId => exact ih (GoodDB_delete init hg id userId)

/-- C1: for every account, after any sequence of createTransaction,
updateTransaction and deleteTransaction operations (in particular any
sequence in which every operation completes successfully), the cached
balance equals the account's balance at creation time plus the signed sum
of the transactions currently referencing it.  The hypotheses are the
store's standing guarantees: unique primary keys, the serial counter ahead
of every row id, and the schema's foreign key from transactions to
accounts. -/
theorem balance_invariant_preserved (init : Nat → Int) (db : DB) (ops : List LedgerOp)
    (hW : WfDB db) (hlive : txRefsLive db) (hbal : balanceInv init db) :
    balanceInv init (runOps db ops) :=
  (GoodDB_runOps init ⟨hW, hlive, hbal⟩ ops).2.2

theorem balance_invariant_preserved_witness :
    WfDB exDb ∧ txRefsLive exDb ∧ balanceInv exInit exDb ∧
    balanceInv exInit (runOps exDb exOps) :=
  ⟨by decide, by decide, by decide,
   balance_invariant_preserved exInit exDb exOps (by decide) (by decide) (by decide)⟩

/-- C2: a successful update changes each account balance by exactly the
net effect of undoing the original transaction's delta and applying the
patched transaction's delta (first conjunct, over every store and patch);
in particular, raising an income transaction's amount from 100 to 150 on
an account with balance 600 yields 650, and flipping income(100) to
expense(100) on an account with balance 650 yields 450 (remaining
conjuncts). -/
theorem update_net_effect :
    (∀ (db : DB) (id userId : Nat) (p : TxPatch) (t0 : Txn) (acct0 acct1 : Account),
      getTransaction db id userId = some t0 →
      patchRefsOk db p.accountId p.categoryId = true →
      findAccount db t0.accountId = some acct0 →
      findAccount db (applyPatch t0 p).accountId = some acct1 →
      (updateTransaction db id userId p).2 = .ok (applyPatch t0 p) ∧
      ∀ j, findAccount (updateTransaction db id userId p).1 j
        = (findAccount db j).map (fun a => { a with balance := a.balance
            - (if t0.accountId = a.id then signedAmount t0 else 0)
            + (if (applyPatch t0 p).accountId = a.id
               then signedAmount (applyPatch t0 p) else 0) })) ∧
    findAccount (updateTransaction c2db1 1 1 c2patchAmount).1 1 = some ⟨1, 1, 650⟩ ∧
    findAccount (updateTransaction c2db2 1 1 c2patchType).1 1 = some ⟨1, 1, 450⟩ := by
  refine ⟨?_, by decide, by decide⟩
  intro db id userId p t0 acct0 acct1 h0 hfk hA0 hA1
  refine ⟨?_, updateTransaction_balance_effect h0 hfk hA0 hA1⟩
  rw [updateTransaction_of_ok h0 hfk hA0 hA1]

/-- C3: creating a transaction and then deleting it restores the account
table — every balance — and the transaction table exactly to their
pre-create state, because deleteTransaction reverts the signed delta
before removing the row. -/
theorem create_delete_round_trip (db : DB) (v : InsertTx) (db1 : DB) (tx : Txn)
    (hW : WfDB db)
    (hc : createTransaction db v = (db1, .ok tx)) :
    (deleteTransaction db1 tx.id v.userId).2 = .ok () ∧
    (deleteTransaction db1 tx.id v.userId).1.accounts = db.accounts ∧
    (deleteTransaction db1 tx.id v.userId).1.transactions = db.transactions := by
  obtain ⟨hWa, hWt, hWn⟩ := hW
  cases hok : insertTxOk db v with
  | false =>
    rw [createTransaction_of_fail hok] at hc
    simp at hc
  | true =>
    obtain ⟨acct, hacct⟩ := insertTxOk_findAccount hok
    rw [createTransaction_of_ok hok hacct] at hc
    have hdb1 : setBalance (insertedDB db v) v.accountId
        (acct.balance + signedAmount (mkTx db v)) = db1 := congrArg Prod.fst hc
    have htx : tx = mkTx db v := (Except.ok.inj (congrArg Prod.snd hc)).symm
    subst htx
    subst hdb1
    have haid : acct.id = v.accountId := findAccount_id hacct
    have hnone : ∀ t ∈ db.transactions,
        (t.id == (mkTx db v).id && t.userId == v.userId) = false := by
      intro t ht
      have hlt := hWn t ht
      have hne : (t.id == (mkTx db v).id) = false := by
        simp only [mkTx, beq_eq_false_iff_ne, ne_eq]
        omega
      simp [hne]
    have hcond : ((mkTx db v).id == (mkTx db v).id
        && (mkTx db v).userId == v.userId) = true := by
      simp [mkTx]
    have h0 : getTransaction (setBalance (insertedDB db v) v.accountId
        (acct.balance + signedAmount (mkTx db v))) (mkTx db v).id v.userId
        = some (mkTx db v) := by
      show (db.transactions ++ [mkTx db v]).find? _ = _
      rw [find?_append_of_none hnone, List.find?_cons, hcond]
    have hA0 : findAccount (setBalance (insertedDB db v) v.accountId
        (acct.balance + signedAmount (mkTx db v))) (mkTx db v).accountId
        = some { acct with balance := acct.balance + signedAmount (mkTx db v) } := by
      rw [show (mkTx db v).accountId = v.accountId from rfl,
          findAccount_setBalance, findAccount_insertedDB, hacct]
      dsimp only [Option.map]
      rw [if_pos (by simp [haid] : (acct.id == v.accountId) = true)]
    rw [deleteTransaction_of_ok h0 hA0]
    refine ⟨rfl, ?_, ?_⟩
    · show ((db.accounts.map _).map _) = db.accounts
      rw [List.map_map]
      apply map_eq_self
      intro a ha
      simp only [Function.comp]
      by_cases hcase : a.id = v.accountId
      · have haa : acct = a :=
          eq_of_pairwise_key (fun x => x.id) hWa (findAccount_mem hacct) ha
            (by show acct.id = a.id; rw [haid, hcase])
        rw [← haa]
        simp [haid, mkTx]
        rw [← haid]
      · simp [hcase, mkTx]
    · show ((db.transactions ++ [mkTx db v]).filter _) = db.transactions
      rw [List.filter_append]
      have hl : db.transactions.filter
          (fun t => !(t.id == (mkTx db v).id && t.userId == v.userId))
          = db.transactions := by
        apply List.filter_eq_self.mpr
        intro t ht
        have hlt := hWn t ht
        have : (t.id == (mkTx db v).id) = false := by
          simp only [beq_eq_false_iff_ne, ne_eq, mkTx]
          omega
        simp [this]
      have hr : [mkTx db v].filter
          (fun t => !(t.id == (mkTx db v).id && t.userId == v.userId)) = [] := by
        simp [mkTx]
      rw [hl, hr, List.append_nil]

theorem create_delete_round_trip_witness :
    WfDB exDb ∧ createTransaction exDb c3v = ((createTransaction exDb c3v).1, .ok (mkTx exDb c3v)) ∧
    ((deleteTransaction (createTransaction exDb c3v).1 (mkTx exDb c3v).id c3v.userId).2 = .ok () ∧
     (deleteTransaction (createTransaction exDb c3v).1 (mkTx exDb c3v).id c3v.userId).1.accounts
       = exDb.accounts ∧
     (deleteTransaction (createTransaction exDb c3v).1 (mkTx exDb c3v).id c3v.userId).1.transactions
       = exDb.transactions) :=
  ⟨by decide, rfl,
   create_delete_round_trip exDb c3v (createTransaction exDb c3v).1 (mkTx exDb c3v)
     (by decide) rfl⟩

/-- C4: a createTransaction call either fails leaving the store exactly as
it was (first conjunct), or succeeds, in which case the new row is
persisted (appended, with the serial id and the caller's fields) and the
referenced account's balance is incremented by `delta = +amount` for
income and `-amount` for expense (second conjunct): the insert and the
balance update are both visible on success and neither is on failure. -/
theorem create_persists_and_adjusts (db : DB) (v : InsertTx) :
    (∀ e, (createTransaction db v).2 = .error e → (createTransaction db v).1 = db) ∧
    (∀ tx, (createTransaction db v).2 = .ok tx →
      tx = mkTx db v ∧
      (createTransaction db v).1.transactions = db.transactions ++ [tx] ∧
      ∀ acct, findAccount db v.accountId = some acct →
        findAccount (createTransaction db v).1 v.accountId
          = some { acct with balance := acct.balance
              + (if v.type = TxType.income then v.amount else -v.amount) }) := by
  constructor
  · intro e he
    exact createTransaction_err he
  · intro tx htx
    cases hok : insertTxOk db v with
    | false =>
      rw [createTransaction_of_fail hok] at htx
      simp at htx
    | true =>
      obtain ⟨acct, hacct⟩ := insertTxOk_findAccount hok
      have heq : tx = mkTx db v := by
        rw [createTransaction_of_ok hok hacct] at htx
        exact (Except.ok.inj htx).symm
      refine ⟨heq, ?_, ?_⟩
      · rw [createTransaction_of_ok hok hacct, heq]
        rfl
      · intro acct2 hacct2
        have : acct2 = acct := by
          rw [hacct] at hacct2
          exact (Option.some.inj hacct2).symm
        subst this
        rw [createTransaction_balance_effect hok hacct v.accountId, hacct2]
        dsimp only [Option.map]
        rw [if_pos (findAccount_id hacct2).symm, signedAmount_eq_ite]
        rfl

/-- C5 (amended): the only check createTransaction performs on its
references is the store's foreign-key check — a missing account or
category makes the call fail with no transaction row created and no
balance changed. -/
theorem create_reference_checks (db : DB) (v : InsertTx)
    (h : (findAccount db v.accountId).isSome = false ∨
         (findCategory db v.categoryId).isSome = false) :
    (createTransaction db v).2 = .error DbErr.fkViolation ∧
    (createTransaction db v).1 = db := by
  have hok : insertTxOk db v = false := by
    unfold insertTxOk
    rcases h with h | h <;> simp [h]
  rw [createTransaction_of_fail hok]
  exact ⟨rfl, rfl⟩

theorem create_reference_checks_witness :
    (findAccount exDb 99).isSome = false ∧
    ((createTransaction exDb ⟨10, 0, "x", .income, 99, 1, 1⟩).2 = .error DbErr.fkViolation ∧
     (createTransaction exDb ⟨10, 0, "x", .income, 99, 1, 1⟩).1 = exDb) :=
  ⟨by decide, create_reference_checks exDb ⟨10, 0, "x", .income, 99, 1, 1⟩ (Or.inl (by decide))⟩

/-- C5 (counterexample): a createTransaction call by user 1 referencing an
account and category owned only by user 2, with a negative amount,
succeeds — no `NotFound`, no `InvalidAmount` — inserts the row and drives
the other user's account balance to −50. -/
theorem create_ownership_not_checked :
    (createTransaction c5xdb c5xv).2 = .ok (mkTx c5xdb c5xv) ∧
    (mkTx c5xdb c5xv).amount = -50 ∧
    (∀ a ∈ c5xdb.accounts, a.userId ≠ c5xv.userId) ∧
    findAccount (createTransaction c5xdb c5xv).1 1 = some ⟨1, 2, -50⟩ := by
  decide

/-- A failed loop iteration leaves the store unchanged: the only failing
access is the transaction insert, which has no effect when rejected. -/
lemma generateOne_err {db : DB} {now : Int} {r : Recur} {e : DbErr}
    (h : (generateOne db now r).2 = .error e) : (generateOne db now r).1 = db := by
  unfold generateOne at h ⊢
  rcases hcr : createTransaction db
      { amount := r.amount, date := now, description := r.description,
        type := r.type, accountId := r.accountId, categoryId := r.categoryId,
        userId := r.userId } with ⟨db1, res⟩
  cases res with
  | error e2 =>
    have h1 := createTransaction_err (show (createTransaction db
        { amount := r.amount, date := now, description := r.description,
          type := r.type, accountId := r.accountId, categoryId := r.categoryId,
          userId := r.userId }).2 = .error e2 by rw [hcr])
    rw [hcr] at h1
    exact h1
  | ok t =>
    rw [hcr] at h
    simp [updateRecurringTransaction, patchRefsOk] at h

/-- C6 (amended): the generation route computes the due list once and runs
the loop inside a single try/catch, so a failure on the first due
definition aborts the whole pass: no transaction is generated for any
definition, no `nextRunDate` (including the failing definition's) is
advanced, and the result carries a single error in place of any
per-definition failure list. -/
theorem generate_pass_first_failure_aborts (db : DB) (now : Int) (r : Recur)
    (rest : List Recur) (e : DbErr)
    (hdue : getRecurringTransactionsDue db now = r :: rest)
    (herr : (generateOne db now r).2 = .error e) :
    generatePass db now = { db := db, transactions := [], error := some e } := by
  have hst : (generateOne db now r).1 = db := generateOne_err herr
  have hpair : generateOne db now r = (db, .error e) := by
    rcases hgen : generateOne db now r with ⟨a, b⟩
    rw [hgen] at hst herr
    dsimp only at hst herr
    rw [hst, herr]
  unfold generatePass
  rw [hdue]
  unfold generateLoop
  rw [hpair]

theorem generate_pass_first_failure_aborts_witness :
    getRecurringTransactionsDue c6db 0 = [c6r1, c6r2] ∧
    (generateOne c6db 0 c6r1).2 = .error DbErr.fkViolation ∧
    generatePass c6db 0 = { db := c6db, transactions := [], error := some DbErr.fkViolation } :=
  ⟨by decide, by decide,
   generate_pass_first_failure_aborts c6db 0 c6r1 [c6r2] DbErr.fkViolation
     (by decide) (by decide)⟩

/-- C6 (counterexample): with two due definitions — the first failing on a
dangling owner row, the second fully valid — the pass reports one error,
generates nothing for the valid second definition, and leaves the whole
store (both `nextRunDate`s included) unchanged; and the result has only
`generated`/`transactions` components, never a per-definition failure
list. -/
theorem generate_pass_abort_example :
    (generatePass c6db 0).error = some DbErr.fkViolation ∧
    (generatePass c6db 0).transactions = [] ∧
    (generatePass c6db 0).db = c6db ∧
    c6r2 ∈ getRecurringTransactionsDue c6db 0 := by
  decide

/-- C7: over a store holding one active recurring definition with live
references, where `J` is the number of schedule points at or before
`now` (the iterated `nextRunDate` first exceeds `now` after `J`
advancements), `k` generation passes with the same `now` create exactly
`min k J` transactions — at most one per pass, none once the advanced
`nextRunDate` has passed `now` — and leave `nextRunDate` at its
`min k J`-th advancement. -/
theorem generate_due_idempotent_count (db : DB) (r : Recur) (now : Int) (J k : Nat)
    (hrec : db.recurring = [r])
    (hacc : (findAccount db r.accountId).isSome = true)
    (hcat : (findCategory db r.categoryId).isSome = true)
    (huser : db.users.contains r.userId = true)
    (hact : r.isActive = true)
    (hJle : ∀ j < J, iterNextRun r.frequency j r.nextRunDate ≤ now)
    (hJgt : ¬ iterNextRun r.frequency J r.nextRunDate ≤ now) :
    (runPasses now k db).transactions.length = db.transactions.length + min k J ∧
    (runPasses now k db).recurring
      = [{ r with nextRunDate := iterNextRun r.frequency (min k J) r.nextRunDate }] := by
  induction k generalizing db r J with
  | zero =>
    constructor
    · simp [runPasses]
    · show db.recurring = _
      rw [hrec, Nat.zero_min]
      rfl
  | succ k ih =>
    cases J with
    | zero =>
      have hnd : ¬ r.nextRunDate ≤ now := hJgt
      have hstep : (generatePass db now).db = db := by
        rw [generatePass_single_notdue hrec hnd]
      have hres := ih db r 0 hrec hacc hcat huser hact
        (fun j hj => absurd hj (Nat.not_lt_zero j)) hJgt
      rw [show runPasses now (k + 1) db = runPasses now k (generatePass db now).db from rfl,
          hstep]
      simpa using hres
    | succ J2 =>
      have hfirst : r.nextRunDate ≤ now := hJle 0 (Nat.succ_pos J2)
      obtain ⟨he, hr2, hlen, hus, hcats, hfa⟩ :=
        generatePass_single_due hrec hacc hcat huser hact hfirst
      have ih2 := ih (generatePass db now).db
        { r with nextRunDate := advanceDays r.frequency r.nextRunDate } J2
        hr2
        (by show (findAccount (generatePass db now).db r.accountId).isSome = true
            rw [hfa]
            exact hacc)
        (by show (findCategory (generatePass db now).db r.categoryId).isSome = true
            unfold findCategory
            rw [hcats]
            exact hcat)
        (by show ((generatePass db now).db.users.contains r.userId) = true
            rw [hus]
            exact huser)
        hact
        (fun j hj => hJle (j + 1) (Nat.succ_lt_succ hj))
        hJgt
      rw [show runPasses now (k + 1) db = runPasses now k (generatePass db now).db from rfl]
      constructor
      · rw [ih2.1, hlen]
        omega
      · rw [ih2.2, Nat.succ_min_succ]
        rfl

theorem generate_due_idempotent_count_witness :
    (∀ j < 1, iterNextRun c7r.frequency j c7r.nextRunDate ≤ 0) ∧
    ¬ iterNextRun c7r.frequency 1 c7r.nextRunDate ≤ 0 ∧
    ((runPasses 0 2 c7db).transactions.length = c7db.transactions.length + min 2 1 ∧
     (runPasses 0 2 c7db).recurring
       = [{ c7r with nextRunDate := iterNextRun c7r.frequency (min 2 1) c7r.nextRunDate }]) :=
  ⟨by decide, by decide,
   generate_due_idempotent_count c7db c7r 0 1 2 (by decide) (by decide) (by decide)
     (by decide) (by decide) (by decide) (by decide)⟩

/-- C8 (counterexample): the monthly advancement does not clamp at month
end: Jan 31, 2025 advances to Mar 3, 2025 (not Feb 28), and Jan 31, 2024
(a leap year) advances to Mar 2, 2024 (not Feb 29) — the schedule does
roll into March. -/
theorem advance_month_no_clamp_jan31 :
    advanceNextRun Freq.monthly ⟨2025, 0, 31⟩ = ⟨2025, 2, 3⟩ ∧
    advanceNextRun Freq.monthly ⟨2025, 0, 31⟩ ≠ ⟨2025, 1, 28⟩ ∧
    advanceNextRun Freq.monthly ⟨2024, 0, 31⟩ = ⟨2024, 2, 2⟩ ∧
    advanceNextRun Freq.monthly ⟨2024, 0, 31⟩ ≠ ⟨2024, 1, 29⟩ := by
  decide

/-- C8 (amended): daily advances by `setDate(getDate() + 1)` and weekly by
`setDate(getDate() + 7)` — adding exactly 1 and 7 days to the time value —
while monthly uses `setMonth(getMonth() + 1)`, which keeps the day-of-month
and lets a day missing from the target month roll over into the following
month rather than clamping: Jan 15 → Feb 15, but Jan 31, 2025 → Mar 3,
2025; Jan 31, 2024 → Mar 2, 2024; Dec 31 → Jan 31 of the next year. -/
theorem advance_frequency_semantics :
    (∀ dt : CivilDate, advanceNextRun Freq.daily dt = civilFromDays (civilToDays dt + 1)) ∧
    (∀ dt : CivilDate, advanceNextRun Freq.weekly dt = civilFromDays (civilToDays dt + 7)) ∧
    (∀ dt : CivilDate, advanceNextRun Freq.monthly dt = jsSetMonth dt (dt.month + 1)) ∧
    advanceNextRun Freq.daily ⟨2025, 1, 28⟩ = ⟨2025, 2, 1⟩ ∧
    advanceNextRun Freq.weekly ⟨2025, 1, 25⟩ = ⟨2025, 2, 4⟩ ∧
    advanceNextRun Freq.monthly ⟨2025, 0, 15⟩ = ⟨2025, 1, 15⟩ ∧
    advanceNextRun Freq.monthly ⟨2025, 0, 31⟩ = ⟨2025, 2, 3⟩ ∧
    advanceNextRun Freq.monthly ⟨2024, 0, 31⟩ = ⟨2024, 2, 2⟩ ∧
    advanceNextRun Freq.monthly ⟨2025, 11, 31⟩ = ⟨2026, 0, 31⟩ :=
  ⟨fun dt => rfl, fun dt => rfl, fun dt => rfl, by decide, by decide, by decide,
   by decide, by decide, by decide⟩

/-- C9 (counterexample): under the interleaving in which both calls read
the balance before either writes, two concurrent createTransaction calls
(incomes 10 and 20 from balance 0) leave the final balance at 20, not the
30 the claim requires — the read-then-write adjustment loses an update. -/
theorem lost_update_interleaving :
    finalBalance [true, true, false, false, true, false] 0 10 20 = 20 ∧
    finalBalance [true, true, false, false, true, false] 0 10 20 ≠ 30 := by
  decide

/-- C9 (amended): the balance adjustment is a separate `select` of the
stored balance followed by an unconditional `update` writing
`read value + delta`.  Serialized schedules of the two calls end at 30,
one lost-update interleaving ends at 20, the symmetric one at 10; a call
running alone changes the balance by exactly its delta. -/
theorem balance_write_lost_update :
    finalBalance [true, true, true, false, false, false] 0 10 20 = 30 ∧
    finalBalance [false, false, false, true, true, true] 0 10 20 = 30 ∧
    finalBalance [true, true, false, false, true, false] 0 10 20 = 20 ∧
    finalBalance [true, true, false, false, false, true] 0 10 20 = 10 ∧
    (∀ b0 d q : Int,
      (runSchedule [true, true, true]
        (b0, { balanceChange := d, pc := 0, currentBalance := 0 },
         { balanceChange := q, pc := 3, currentBalance := 0 })).1 = b0 + d) :=
  ⟨by decide, by decide, by decide, by decide, fun b0 d q => rfl⟩

/-- C10: the due query inner-joins the definition with its account and
category rows, so an active definition with `nextRunDate ≤ now` whose
account or category row is missing is omitted from the due list — the
generation pass iterates exactly that list, so the definition is never
processed and never contributes a failure. -/
theorem due_query_omits_dangling (db : DB) (now : Int) (r : Recur)
    (hmem : r ∈ db.recurring) (hact : r.isActive = true)
    (hdue : r.nextRunDate ≤ now)
    (hdangle : (findAccount db r.accountId).isSome = false ∨
               (findCategory db r.categoryId).isSome = false) :
    r ∉ getRecurringTransactionsDue db now := by
  intro hin
  unfold getRecurringTransactionsDue at hin
  have hpred := List.of_mem_filter hin
  rcases hdangle with h | h <;> simp [h] at hpred

theorem due_query_omits_dangling_witness :
    c10r ∈ c10db.recurring ∧ c10r.isActive = true ∧ c10r.nextRunDate ≤ (0 : Int) ∧
    (findAccount c10db c10r.accountId).isSome = false ∧
    c10r ∉ getRecurringTransactionsDue c10db 0 :=
  ⟨by decide, by decide, by decide, by decide,
   due_query_omits_dangling c10db 0 c10r (by decide) (by decide) (by decide)
     (Or.inl (by decide))⟩

end FinanceBuddy
